import Mathlib

/-!
Shallow embedding of `card_maker.py`, a card-rendering utility that draws a
title and wrapped text blocks onto a fixed-size canvas and exports one image
per data row.

Modelling choices:
* The PIL canvas is modelled by a `CardState` carrying the vertical cursor,
  the stored title, and the list of draw calls issued so far (`DrawOp`);
  drawing mutates in place in Python, so operations return the partial state
  together with an optional error instead of discarding it on failure.
* External collaborators (the frame image size and the font-dependent pixel
  width returned by `draw.textsize`) are parameters of the configuration
  `Cfg`; the `measure` field stands for `draw.textsize` under a given font.
* Python float arithmetic on the aspect ratio is modelled by exact rational
  arithmetic; `int(n * ratio)` with `ratio = width / height` becomes the
  natural-number division `(n * width) / height`, and `int()` applied to a
  rational is truncation toward zero (`int_py`).
* `textwrap.wrap` is embedded with CPython's default settings, method by
  method (whitespace munging, the `wordsep_re` chunk decomposition with
  hyphenated-word and em-dash breaks, greedy line filling with long-word
  breaking); its `ValueError` on a non-positive width surfaces in
  `add_text`.
* File input/output in `process_csv` is modelled as a trace of events; the
  save step is modelled by an outcome value parameterised over whether the
  output folder exists (the Python code catches `OSError` and only reports).
-/

set_option autoImplicit false

namespace CardMaker

/-- Font style, selected by the `style` string argument (`fonts_bold` /
`fonts_italic` dictionaries in the source). -/
inductive FontStyle
  | bold
  | italic
deriving DecidableEq, Repr

/-- Font size tier, the keys of the font dictionaries
(`{'title': 40, 'large': 30, 'normal': 25, 'small': 20}`). -/
inductive FontTier
  | title
  | large
  | normal
  | small
deriving DecidableEq, Repr

/-- A loaded font resource, identified by its style and tier. -/
structure Font where
  style : FontStyle
  tier : FontTier
deriving DecidableEq, Repr

/-- The exception classes that can escape from `Card` methods: the three
classes the module defines, plus the builtin `ValueError` that
`textwrap.wrap` raises inside `add_text` when the character budget is not
positive. -/
inductive CardError
  | characterLimitExceededError
  | titleAlreadySetExeption
  | unknownFontStyleExeption
  | valueError
deriving DecidableEq, Repr

/-- Per-card configuration fixed at `Card.__init__`: the frame image size,
the reserved bottom `space`, and the external text-measurement function
(`draw.textsize` under a chosen font). -/
structure Cfg where
  image_width : Nat
  image_height : Nat
  space : Nat
  measure : String → Font → Nat

/-- One `draw.text` call recorded on the canvas: position, text, font.
The x coordinate is rational because `int(self.image_width-text_width)/2`
in `add_title` is a Python float. -/
structure DrawOp where
  x : ℚ
  y : Nat
  text : String
  font : Font
deriving DecidableEq, Repr

/-- The mutable part of a `Card`: vertical cursor, stored title, and the
draw calls issued so far. -/
structure CardState where
  y_position : Nat
  title : String
  drawn : List DrawOp
deriving DecidableEq, Repr

/-- The fixed line height: `self.line_height = 30`. -/
def line_height : Nat := 30

/-- The fixed blank-line height: `self.blank_line_height = 40`. -/
def blank_line_height : Nat := 40

/-- The freshly constructed card state: `self.y_position = 20`,
`self.title = ''`, nothing drawn yet. -/
def Card.init : CardState :=
  { y_position := 20, title := "", drawn := [] }

/-- Embeds `int(n * self.ratio)` where `self.ratio = image_width / image_height`,
in exact arithmetic: truncating a non-negative rational is the floor, which
is natural-number division. -/
def ratio_to_int (cfg : Cfg) (n : Nat) : Nat :=
  (n * cfg.image_width) / cfg.image_height

/-- Embeds `self.image_height - self.space`, the bound checked against the cursor
inside `add_text` (as a Python integer, possibly negative). -/
def height_minus_space (cfg : Cfg) : ℤ :=
  (cfg.image_height : ℤ) - (cfg.space : ℤ)

/-- The style-string dispatch at the top of `choose_font`: `'bold'` and
`'italic'` select a font dictionary, anything else raises. -/
def styleDict? (style : String) : Option FontStyle :=
  if style = "bold" then some FontStyle.bold
  else if style = "italic" then some FontStyle.italic
  else none

/-- Embeds `Card.choose_font(text, style, size)`: selects the font dictionary from
`style`, then the tier and the character budget from the text length, the
size hint and the aspect ratio. -/
def choose_font (cfg : Cfg) (text style size : String) :
    Except CardError (Font × Nat) :=
  match styleDict? style with
  | none => Except.error CardError.unknownFontStyleExeption
  | some fs =>
    if text.length > ratio_to_int cfg 150 ∨ size = "small" then
      Except.ok (⟨fs, FontTier.small⟩, ratio_to_int cfg 50)
    else if text.length > ratio_to_int cfg 100 ∨ size = "normal" then
      Except.ok (⟨fs, FontTier.normal⟩, ratio_to_int cfg 40)
    else
      Except.ok (⟨fs, FontTier.normal⟩, ratio_to_int cfg 30)

/-! The `textwrap` module, CPython default settings.

The method `Card.add_text` calls `textwrap.wrap(text, characters)` with
all options at their defaults (`expand_tabs`, `replace_whitespace`,
`drop_whitespace`, `break_long_words`, `break_on_hyphens` all true,
`tabsize` 8, no indents, no `max_lines`). The definitions below embed
`TextWrapper` method by method. Character classes are modelled on the
ASCII range, with every character above 127 classified as a word character
and a letter — this agrees with the Unicode regex classes on the accented
letters that this program's Czech data contains. -/

/-- The six characters of `textwrap._whitespace`
(`'\t\n\x0b\x0c\r '`) — textwrap deliberately recognises only these, not
the Unicode spaces. -/
def isPyWhitespace (c : Char) : Bool :=
  c == '\t' || c == '\n' || c == '\x0b' || c == '\x0c' || c == '\r' || c == ' '

/-- Embeds `str.expandtabs(8)`: a tab becomes spaces up to the next
multiple of 8 of the current column; newline and carriage return reset the
column; every other character advances it by one. -/
def expandtabsAux : List Char → Nat → List Char
  | [], _ => []
  | c :: cs, col =>
    if c == '\t' then
      List.replicate (8 - col % 8) ' ' ++ expandtabsAux cs (col + (8 - col % 8))
    else if c == '\n' || c == '\r' then
      c :: expandtabsAux cs 0
    else
      c :: expandtabsAux cs (col + 1)

/-- Embeds `TextWrapper._munge_whitespace`: expand tabs, then replace each
of the six recognised whitespace characters by a space. -/
def munge_whitespace (t : List Char) : List Char :=
  (expandtabsAux t 0).map (fun c => if isPyWhitespace c then ' ' else c)

/-- The regex class `\w` of `wordsep_re`: ASCII alphanumerics and
underscore; characters above 127 count as word characters. -/
def isWordChar (c : Char) : Bool :=
  c.isAlphanum || c == '_' || decide (128 ≤ c.toNat)

/-- The regex class `[^\d\W]` (word characters that are not digits) used
for the hyphen break conditions of `wordsep_re`. -/
def isLetterChar (c : Char) : Bool :=
  c.isAlpha || c == '_' || decide (128 ≤ c.toNat)

/-- The regex class `[\w!"\'&.,?]` (`word_punct`) of `wordsep_re`. -/
def isWordPunct (c : Char) : Bool :=
  isWordChar c || c == '!' || c == '"' || c == '\'' || c == '&' ||
    c == '.' || c == ',' || c == '?'

/-- The lookahead `-{2,}\w` of `wordsep_re`: the text ahead starts with a
run of at least two hyphens whose end is followed by a word character. -/
def emDashAhead (rest : List Char) : Bool :=
  let hs := rest.takeWhile (fun c => c == '-')
  2 ≤ hs.length &&
    (match rest.drop hs.length with
     | c :: _ => isWordChar c
     | [] => false)

/-- The hyphenated-word break of `wordsep_re` at a position: the position
follows a hyphen whose lookbehind is letter-letter-hyphen or
letter-hyphen-letter-hyphen, and whose lookahead is a letter, an optional
hyphen, and a letter. `prev` lists the characters before the position,
nearest first; `rest` those after it. -/
def hyphenBreak (prev rest : List Char) : Bool :=
  ((match prev with
    | '-' :: x :: y :: _ => isLetterChar x && isLetterChar y
    | _ => false)
   ||
   (match prev with
    | '-' :: x :: '-' :: y :: _ => isLetterChar x && isLetterChar y
    | _ => false))
  &&
  (match rest with
   | x :: y :: more =>
     isLetterChar x &&
       (isLetterChar y ||
        (y == '-' && (match more with | z :: _ => isLetterChar z | [] => false)))
   | _ => false)

/-- Scans one word chunk of `wordsep_re` (the lazy `nws+?` alternative):
after the word's first character, consume characters until the earliest
position satisfying one of the regex's end alternatives — a
hyphenated-word break, the end of the word at whitespace or at the end of
the text, or the position before an em-dash (`(?<=wp)(?=-{2,}\w)`).
Returns the word and the remaining text; `prev` lists all characters
before the current position, nearest first. -/
def wordScan : List Char → List Char → List Char → List Char × List Char
  | _, acc, [] => (acc.reverse, [])
  | prev, acc, c :: cs =>
    if isPyWhitespace c then (acc.reverse, c :: cs)
    else if hyphenBreak prev (c :: cs) then (acc.reverse, c :: cs)
    else if (match prev with | p :: _ => isWordPunct p | [] => false)
        && emDashAhead (c :: cs) then (acc.reverse, c :: cs)
    else wordScan (c :: prev) (c :: acc) cs

/-- Embeds the chunk decomposition of `TextWrapper._split` under
`break_on_hyphens=True` (the `wordsep_re` regex), scanning the munged text
left to right: a maximal whitespace run is one chunk; a run of two or more
hyphens preceded by a word-punctuation character and followed by a word
character is an em-dash chunk; anything else starts a word chunk ending at
the earliest break position. Empty chunks never arise, matching the
filter in `_split`. `fuel` bounds the number of chunks; every chunk
consumes at least one character, so `length + 1` fuel suffices. `prev`
lists the characters before the current position, nearest first. -/
def splitChunksAux : Nat → List Char → List Char → List (List Char)
  | 0, _, _ => []
  | _ + 1, _, [] => []
  | fuel + 1, prev, c :: cs =>
    if isPyWhitespace c then
      let sp := (c :: cs).takeWhile isPyWhitespace
      sp :: splitChunksAux fuel (sp.reverse ++ prev) ((c :: cs).drop sp.length)
    else if (match prev with | p :: _ => isWordPunct p | [] => false)
        && emDashAhead (c :: cs) then
      let hs := (c :: cs).takeWhile (fun x => x == '-')
      hs :: splitChunksAux fuel (hs.reverse ++ prev) ((c :: cs).drop hs.length)
    else
      match wordScan (c :: prev) [c] cs with
      | (word, rest) =>
        word :: splitChunksAux fuel (word.reverse ++ prev) rest

/-- Python `chunk.strip() == ''` on a munged chunk: all characters are
spaces (vacuously true for the empty chunk). -/
def isBlankChunk (w : List Char) : Bool :=
  w.all (fun c => c == ' ')

/-- Python `chunk.rfind('-', 0, stop)`: the greatest index below `stop`
holding a hyphen, if any. -/
def lastHyphenBefore : List Char → Nat → Option Nat
  | [], _ => none
  | _, 0 => none
  | c :: cs, stop + 1 =>
    match lastHyphenBefore cs stop with
    | some h => some (h + 1)
    | none => if c == '-' then some 0 else none

/-- Embeds `TextWrapper._handle_long_word` under `break_long_words=True`
and `break_on_hyphens=True`: put as much of the over-long chunk onto the
current line as fits (`space_left` characters), preferring to break right
after the last hyphen within that space when the part before the hyphen
contains a non-hyphen. Returns the piece for the current line and the
chunk's remainder. -/
def handle_long_word (width cur_len : Nat) (chunk : List Char) :
    List Char × List Char :=
  let space_left := if width < 1 then 1 else width - cur_len
  let endPos :=
    if space_left < chunk.length then
      match lastHyphenBefore chunk space_left with
      | some h =>
        if 0 < h && (chunk.take h).any (fun c => c != '-') then h + 1
        else space_left
      | none => space_left
    else space_left
  (chunk.take endPos, chunk.drop endPos)

/-- The inner fill loop of `TextWrapper._wrap_chunks`: greedily move whole
chunks onto the current line while the accumulated length stays within
`width`. Returns the chunks taken and those remaining. -/
def fillLine (width : Nat) : Nat → List (List Char) → List (List Char) × List (List Char)
  | _, [] => ([], [])
  | cur_len, ch :: rest =>
    if cur_len + ch.length ≤ width then
      match fillLine width (cur_len + ch.length) rest with
      | (taken, rem) => (ch :: taken, rem)
    else ([], ch :: rest)

/-- Embeds the main loop of `TextWrapper._wrap_chunks` under the default
settings (no indents, `drop_whitespace`, `break_long_words`, no
`max_lines`): per line, drop one leading blank chunk unless no line has
been emitted yet (`started`), greedily fill with whole chunks, break the
next chunk when it is too long for any line, drop one trailing blank
chunk, and emit the line if anything remains. `fuel` bounds the number of
iterations: every iteration consumes at least one chunk or shortens the
over-long head chunk, so the total number of characters plus the number of
chunks plus one suffices. -/
def wrapChunksAux (width : Nat) : Nat → List (List Char) → Bool → List (List Char)
  | 0, _, _ => []
  | _ + 1, [], _ => []
  | fuel + 1, ch :: chs, started =>
    let chunks1 := if started && isBlankChunk ch then chs else ch :: chs
    match fillLine width 0 chunks1 with
    | (cur_line0, rest0) =>
      let cur_len0 := (cur_line0.map List.length).sum
      let step :=
        match rest0 with
        | c :: crest =>
          if width < c.length then
            match handle_long_word width cur_len0 c with
            | (piece, restChunk) => (cur_line0 ++ [piece], restChunk :: crest)
          else (cur_line0, rest0)
        | [] => (cur_line0, ([] : List (List Char)))
      let cur_line1 := step.1
      let rest1 := step.2
      let cur_line2 :=
        match cur_line1.getLast? with
        | some lastc => if isBlankChunk lastc then cur_line1.dropLast else cur_line1
        | none => cur_line1
      if cur_line2.isEmpty then
        wrapChunksAux width fuel rest1 started
      else
        cur_line2.flatten :: wrapChunksAux width fuel rest1 true

/-- Embeds `textwrap.wrap(text, width)` with CPython's default settings:
munge the whitespace, split into `wordsep_re` chunks (whitespace runs kept
whole, hyphenated-word and em-dash breaks), then fill lines greedily,
breaking chunks longer than `width`. CPython raises `ValueError` for
`width ≤ 0` before producing any line; that failure is modelled at the
call site in `add_text`. -/
def wrap (text : String) (width : Nat) : List String :=
  let t := munge_whitespace text.data
  let chunks := splitChunksAux (t.length + 1) [] t
  (wrapChunksAux width ((chunks.map List.length).sum + chunks.length + 1)
      chunks false).map (fun l => String.mk l)

/-- Embeds `title.replace(' ', '_')`: every space character becomes an
underscore. -/
def replaceSpaces (s : String) : String :=
  String.mk (s.data.map (fun c => if c = ' ' then '_' else c))

/-- Embeds `Card.add_title(title)`: raises if a (truthy, i.e. non-empty) title is
already stored; otherwise centers the title under the bold title font, draws
it at the current cursor, advances the cursor by `blank_line_height`, and
stores the title with spaces replaced by underscores. -/
def add_title (cfg : Cfg) (s : CardState) (title : String) :
    CardState × Option CardError :=
  if s.title ≠ "" then
    (s, some CardError.titleAlreadySetExeption)
  else
    let text_width := cfg.measure title ⟨FontStyle.bold, FontTier.title⟩
    let x_position : ℚ := ((cfg.image_width : ℚ) - (text_width : ℚ)) / 2
    ({ y_position := s.y_position + blank_line_height,
       title := replaceSpaces title,
       drawn := s.drawn ++
         [⟨x_position, s.y_position, title, ⟨FontStyle.bold, FontTier.title⟩⟩] },
     none)

/-- Embeds Python `int()` on a rational: truncation toward zero, the floor
for non-negative values and the ceiling for negative ones. -/
def int_py (q : ℚ) : ℤ :=
  if 0 ≤ q then Int.floor q else Int.ceil q

/-- The per-line loop body of `Card.add_text`: for each wrapped line,
measure it, advance the cursor by `line_height`, raise
`CharacterLimitExceededError` if the advanced cursor exceeds
`image_height - space`, otherwise draw the centered line; lines drawn before
a failure stay on the canvas. -/
def drawLines (cfg : Cfg) (font : Font) :
    List String → CardState → CardState × Option CardError
  | [], s => (s, none)
  | line :: rest, s =>
    let text_width := cfg.measure line font
    let x_position : ℤ := int_py (((cfg.image_width : ℚ) - (text_width : ℚ)) / 2)
    let y1 := s.y_position + line_height
    if (y1 : ℤ) > height_minus_space cfg then
      ({ s with y_position := y1 }, some CardError.characterLimitExceededError)
    else
      drawLines cfg font rest
        { s with
          y_position := y1,
          drawn := s.drawn ++ [⟨(x_position : ℚ), y1, line, font⟩] }

/-- Embeds `Card.add_text(text, style, size)`: choose the font and character
budget, wrap the text (where `textwrap.wrap` raises `ValueError` for a
non-positive budget, before anything is drawn), draw the lines with
per-line overflow checking, and on success advance the cursor by one extra
`blank_line_height`. -/
def add_text (cfg : Cfg) (s : CardState) (text style size : String) :
    CardState × Option CardError :=
  match choose_font cfg text style size with
  | Except.error e => (s, some e)
  | Except.ok (font, characters) =>
    if characters = 0 then
      (s, some CardError.valueError)
    else
      match drawLines cfg font (wrap text characters) s with
      | (s1, some e) => (s1, some e)
      | (s1, none) =>
        ({ s1 with y_position := s1.y_position + blank_line_height }, none)

/-- One layout call issued by a composer against a card. -/
inductive Op
  | opTitle (t : String)
  | opText (t style size : String)
deriving DecidableEq, Repr

/-- Apply one layout call to a card state. -/
def applyOp (cfg : Cfg) (s : CardState) : Op → CardState × Option CardError
  | Op.opTitle t => add_title cfg s t
  | Op.opText t style size => add_text cfg s t style size

/-- Run layout calls in sequence; the first raised error aborts the rest
(Python exception propagation), keeping the state at the failure point. -/
def runOps (cfg : Cfg) (s : CardState) : List Op → CardState × Option CardError
  | [] => (s, none)
  | op :: ops =>
    match applyOp cfg s op with
    | (s1, some e) => (s1, some e)
    | (s1, none) => runOps cfg s1 ops

/-- Outcome of `Card.save_into_file`: the save either succeeds at a path or
the missing folder is reported (the `OSError` is caught; nothing escapes). -/
inductive SaveOutcome
  | saved (path : String)
  | folderMissing (folder : String)
deriving DecidableEq, Repr

/-- Whether a path string ends in the separator character. -/
def endsWithSep (s : String) : Bool :=
  s.data.getLast? = some '/'

/-- Embeds `os.path.join(a, b)` for the relative paths this program uses. -/
def os_path_join (a b : String) : String :=
  if a = "" then b
  else if endsWithSep a then a ++ b
  else a ++ "/" ++ b

/-- Embeds `Card.save_into_file(folder_path)`: builds
`card_<stored title>.png` under `folder_path` and saves; a missing folder
(`OSError`) is caught and reported, never raised. `folderExists` stands for
the external filesystem state. -/
def save_into_file (folder_path : String) (folderExists : Bool)
    (s : CardState) : SaveOutcome :=
  let img_name := "card_" ++ s.title ++ ".png"
  let img_path := os_path_join folder_path img_name
  if folderExists then SaveOutcome.saved img_path
  else SaveOutcome.folderMissing folder_path

/-- A parsed row of the magical-items input file, with the columns
`create_magical_item` reads (`Jméno`, `Legenda`, `Mechanika`, `InSet`,
`Set`, `SetPocet`). -/
structure MagicalItemRow where
  jmeno : String
  legenda : String
  mechanika : String
  inSet : String
  setName : String
  setPocet : String
deriving DecidableEq, Repr

/-- The frame image of a card type together with the external text
measurement; `Card(frame_path, space)` derives the canvas size from it. -/
structure Frame where
  image_width : Nat
  image_height : Nat
  measure : String → Font → Nat

/-- The `Card` configuration built by `create_magical_item`:
`Card(frame_path, 100)` with the magical-item frame. -/
def magical_item_cfg (fr : Frame) : Cfg :=
  { image_width := fr.image_width,
    image_height := fr.image_height,
    space := 100,
    measure := fr.measure }

/-- The layout calls `create_magical_item` issues on its card, in source
order: the kicker label, the title, the set-membership line only when the
`InSet` field is the string `"1"`, the mechanic text, the flavor text. -/
def magical_item_ops (item : MagicalItemRow) : List Op :=
  [Op.opText "Magický předmět" "italic" "normal"]
  ++ [Op.opTitle item.jmeno]
  ++ (if item.inSet = "1" then
        [Op.opText ("Patří do setu: " ++ item.setName ++ "  [" ++ item.setPocet ++ "]")
          "italic" "small"]
      else [])
  ++ [Op.opText item.mechanika "bold" "large"]
  ++ [Op.opText item.legenda "italic" "large"]

/-- Embeds `create_magical_item(item)`: a fresh card on the magical-item frame with
reserved bottom space 100, run through the composer's layout calls (the
final `save_into_file()` is modelled separately by `save_into_file`). -/
def create_magical_item (fr : Frame) (item : MagicalItemRow) :
    CardState × Option CardError :=
  runOps (magical_item_cfg fr) Card.init (magical_item_ops item)

/-- The exception raised by `process_csv` on an unknown card type. -/
inductive ProcError
  | unknownCardTypeException
deriving DecidableEq, Repr

/-- The composer selected by the `card_type` dispatch in `process_csv`. -/
inductive Composer
  | magicalItems
  | mazeCards
deriving DecidableEq, Repr

/-- The `card_type` dispatch at the top of `process_csv`: `'magical-items'`
and `'maze-cards'` select a composer, anything else raises before any file
is touched. -/
def dispatchComposer? (card_type : String) : Option Composer :=
  if card_type = "magical-items" then some Composer.magicalItems
  else if card_type = "maze-cards" then some Composer.mazeCards
  else none

/-- An externally visible step of `process_csv`: opening the input file, or
handing one row to the selected composer. -/
inductive ProcEvent
  | evOpen (path : String)
  | evRow (c : Composer) (row : MagicalItemRow)
deriving DecidableEq, Repr

/-- Embeds `process_csv(csv_path, card_type)` as its trace of externally visible
steps: dispatch on the card type first (raising on an unknown type before
the file is opened), then open the input file, then process each row in
order with the selected composer. -/
def process_csv (csv_path card_type : String) (rows : List MagicalItemRow) :
    Except ProcError (List ProcEvent) :=
  match dispatchComposer? card_type with
  | none => Except.error ProcError.unknownCardTypeException
  | some c =>
    Except.ok (ProcEvent.evOpen csv_path :: rows.map (fun row => ProcEvent.evRow c row))

/-! ### Helper lemmas about the per-line loop of `add_text` -/

/-- The per-line loop only ever raises the overflow error. -/
lemma drawLines_snd_eq (cfg : Cfg) (font : Font) :
    ∀ (lines : List String) (s : CardState),
      (drawLines cfg font lines s).2 = none ∨
      (drawLines cfg font lines s).2 = some CardError.characterLimitExceededError := by
  intro lines
  induction lines with
  | nil => intro s; left; rfl
  | cons line rest ih =>
    intro s
    simp only [drawLines]
    split
    · right; rfl
    · exact ih _

/-- The per-line loop succeeds exactly when every line's advanced cursor
position stays within `image_height - space`. -/
lemma drawLines_none_iff (cfg : Cfg) (font : Font) :
    ∀ (lines : List String) (s : CardState),
      (drawLines cfg font lines s).2 = none ↔
        ∀ i < lines.length,
          ((s.y_position + line_height * (i + 1) : ℕ) : ℤ) ≤ height_minus_space cfg := by
  intro lines
  induction lines with
  | nil => intro s; simp [drawLines]
  | cons line rest ih =>
    intro s
    simp only [drawLines]
    split
    next h =>
      simp only [List.length_cons, line_height] at h ⊢
      constructor
      · intro hc; exact Option.noConfusion hc
      · intro hall
        have h0 := hall 0 (by omega)
        push_cast at h0 h
        omega
    next h =>
      rw [ih]
      dsimp only
      simp only [List.length_cons, line_height] at h ⊢
      constructor
      · intro hall i hi
        match i with
        | 0 =>
          push_cast at h ⊢
          omega
        | Nat.succ i' =>
          have hrec := hall i' (by omega)
          push_cast at hrec ⊢
          omega
      · intro hall i hi
        have hrec := hall (i + 1) (by omega)
        push_cast at hrec ⊢
        omega

/-- On success the per-line loop advances the cursor by `line_height` per
line and appends exactly the lines, in order, to the drawn calls. -/
lemma drawLines_none_spec (cfg : Cfg) (font : Font) :
    ∀ (lines : List String) (s : CardState),
      (drawLines cfg font lines s).2 = none →
        (drawLines cfg font lines s).1.y_position
            = s.y_position + line_height * lines.length
        ∧ (drawLines cfg font lines s).1.drawn.map DrawOp.text
            = s.drawn.map DrawOp.text ++ lines
        ∧ (drawLines cfg font lines s).1.title = s.title := by
  intro lines
  induction lines with
  | nil => intro s _; simp [drawLines]
  | cons line rest ih =>
    intro s
    simp only [drawLines]
    split
    next h =>
      intro hnone
      exact Option.noConfusion hnone
    next h =>
      intro hnone
      obtain ⟨h1, h2, h3⟩ := ih _ hnone
      refine ⟨?_, ?_, ?_⟩
      · rw [h1]; dsimp only; simp only [List.length_cons, line_height]; omega
      · rw [h2]; dsimp only; simp
      · rw [h3]

/-- When the lines up to index `j` fit but line `j`'s advanced cursor
overflows, the loop raises at line `j`: the cursor stops at line `j`'s
advanced position and exactly the lines before `j` are on the canvas. -/
lemma drawLines_err_spec (cfg : Cfg) (font : Font) :
    ∀ (lines : List String) (s : CardState) (j : Nat),
      j < lines.length →
      (∀ i < j, ((s.y_position + line_height * (i + 1) : ℕ) : ℤ) ≤ height_minus_space cfg) →
      (((s.y_position + line_height * (j + 1) : ℕ) : ℤ) > height_minus_space cfg) →
        (drawLines cfg font lines s).2 = some CardError.characterLimitExceededError
        ∧ (drawLines cfg font lines s).1.y_position = s.y_position + line_height * (j + 1)
        ∧ (drawLines cfg font lines s).1.drawn.map DrawOp.text
            = s.drawn.map DrawOp.text ++ lines.take j := by
  intro lines
  induction lines with
  | nil => intro s j hj _ _; simp at hj
  | cons line rest ih =>
    intro s j hj hpre hat
    simp only [drawLines]
    split
    next h =>
      have hj0 : j = 0 := by
        by_contra hne
        have h0 := hpre 0 (by omega)
        push_cast at h0 h
        simp only [line_height] at h0 h
        omega
      subst hj0
      refine ⟨rfl, ?_, ?_⟩
      · dsimp only; simp [line_height]
      · simp
    next h =>
      match j with
      | 0 =>
        exfalso
        push_cast at hat h
        simp only [line_height] at hat h
        omega
      | Nat.succ j' =>
        have hrec := ih
          { s with
            y_position := s.y_position + line_height,
            drawn := s.drawn ++
              [⟨((int_py (((cfg.image_width : ℚ) - (cfg.measure line font : ℚ)) / 2) : ℤ) : ℚ),
                s.y_position + line_height, line, font⟩] }
          j'
          (by simp only [List.length_cons] at hj; omega)
          (fun i hi => by
            have hstep := hpre (i + 1) (by omega)
            dsimp only
            push_cast at hstep ⊢
            simp only [line_height] at hstep ⊢
            omega)
          (by
            dsimp only
            push_cast at hat ⊢
            simp only [line_height] at hat ⊢
            omega)
        obtain ⟨g1, g2, g3⟩ := hrec
        refine ⟨g1, ?_, ?_⟩
        · exact g2.trans (by dsimp only; simp only [line_height]; omega)
        · exact g3.trans (by dsimp only; simp)

/-- The per-line loop never moves the cursor backwards. -/
lemma drawLines_mono (cfg : Cfg) (font : Font) :
    ∀ (lines : List String) (s : CardState),
      s.y_position ≤ (drawLines cfg font lines s).1.y_position := by
  intro lines
  induction lines with
  | nil => intro s; exact le_refl _
  | cons line rest ih =>
    intro s
    simp only [drawLines]
    split
    · dsimp only; simp [line_height]
    · exact le_trans (by dsimp only; simp [line_height]) (ih _)

/-- Every draw call added by the per-line loop sits within the printable
area: its y position is at most `image_height - space`. -/
lemma drawLines_drawn_mem (cfg : Cfg) (font : Font) :
    ∀ (lines : List String) (s : CardState) (op : DrawOp),
      op ∈ (drawLines cfg font lines s).1.drawn →
      op ∈ s.drawn ∨ ((op.y : ℕ) : ℤ) ≤ height_minus_space cfg := by
  intro lines
  induction lines with
  | nil => intro s op hmem; exact Or.inl hmem
  | cons line rest ih =>
    intro s op hmem
    simp only [drawLines] at hmem
    split at hmem
    next h => exact Or.inl hmem
    next h =>
      rcases ih _ op hmem with hin | hbound
      · dsimp only at hin
        rcases List.mem_append.mp hin with hold | hnew
        · exact Or.inl hold
        · right
          simp only [List.mem_singleton] at hnew
          subst hnew
          dsimp only
          push_cast at h ⊢
          omega
      · exact Or.inr hbound

/-- Running `add_title` on a card whose stored title is non-empty (truthy in
Python) raises and leaves the state untouched. -/
lemma add_title_of_ne (cfg : Cfg) (s : CardState) (t : String) (h : s.title ≠ "") :
    add_title cfg s t = (s, some CardError.titleAlreadySetExeption) := by
  simp [add_title, h]

/-- Running `add_title` on a card with no stored title draws the centered title at
the current cursor, advances by `blank_line_height`, and stores the title
with spaces replaced by underscores. -/
lemma add_title_of_eq (cfg : Cfg) (s : CardState) (t : String) (h : s.title = "") :
    add_title cfg s t =
      ({ y_position := s.y_position + blank_line_height,
         title := replaceSpaces t,
         drawn := s.drawn ++
           [⟨((cfg.image_width : ℚ) - (cfg.measure t ⟨FontStyle.bold, FontTier.title⟩ : ℚ)) / 2,
             s.y_position, t, ⟨FontStyle.bold, FontTier.title⟩⟩] }, none) := by
  simp [add_title, h]

/-- The operation `add_title` never moves the cursor backwards. -/
lemma add_title_y_mono (cfg : Cfg) (s : CardState) (t : String) :
    s.y_position ≤ (add_title cfg s t).1.y_position := by
  by_cases h : s.title = ""
  · rw [add_title_of_eq cfg s t h]; simp
  · rw [add_title_of_ne cfg s t h]

/-- The operation `add_text` never moves the cursor backwards. -/
lemma add_text_y_mono (cfg : Cfg) (s : CardState) (text style size : String) :
    s.y_position ≤ (add_text cfg s text style size).1.y_position := by
  unfold add_text
  cases hc : choose_font cfg text style size with
  | error e => dsimp only; exact le_refl _
  | ok p =>
    obtain ⟨font, chars⟩ := p
    dsimp only
    split
    · exact le_refl _
    · have hm := drawLines_mono cfg font (wrap text chars) s
      cases hd : drawLines cfg font (wrap text chars) s with
      | mk s1 o =>
        rw [hd] at hm
        cases o with
        | none => dsimp only; exact hm.trans (Nat.le_add_right _ _)
        | some e => exact hm

/-- Any single layout call never moves the cursor backwards. -/
lemma applyOp_y_mono (cfg : Cfg) (s : CardState) (op : Op) :
    s.y_position ≤ (applyOp cfg s op).1.y_position := by
  cases op with
  | opTitle t => exact add_title_y_mono cfg s t
  | opText t style size => exact add_text_y_mono cfg s t style size

/-- A sequence of layout calls never moves the cursor backwards, whether it
completes or stops at an error. -/
lemma runOps_y_mono (cfg : Cfg) :
    ∀ (ops : List Op) (s : CardState),
      s.y_position ≤ (runOps cfg s ops).1.y_position := by
  intro ops
  induction ops with
  | nil => intro s; exact le_refl _
  | cons op rest ih =>
    intro s
    simp only [runOps]
    have h1 := applyOp_y_mono cfg s op
    cases hap : applyOp cfg s op with
    | mk s1 o =>
      rw [hap] at h1
      cases o
      · exact h1.trans (ih s1)
      · exact h1

/-- Unfolding `add_text` once the font and a positive character budget are
fixed. -/
lemma add_text_eq (cfg : Cfg) (s : CardState) (text style size : String)
    (font : Font) (chars : ℕ)
    (hc : choose_font cfg text style size = Except.ok (font, chars))
    (hpos : 0 < chars) :
    add_text cfg s text style size =
      match drawLines cfg font (wrap text chars) s with
      | (s1, some e) => (s1, some e)
      | (s1, none) =>
        ({ s1 with y_position := s1.y_position + blank_line_height }, none) := by
  unfold add_text
  rw [hc]
  dsimp only
  rw [if_neg (by omega)]

/-- For a valid style the font selection succeeds. -/
lemma choose_font_ok_of_style (cfg : Cfg) (text style size : String)
    (hstyle : style = "bold" ∨ style = "italic") :
    ∃ fb, choose_font cfg text style size = Except.ok fb := by
  have hfs : ∃ fs, styleDict? style = some fs := by
    rcases hstyle with h | h <;> subst h
    · exact ⟨FontStyle.bold, rfl⟩
    · exact ⟨FontStyle.italic, rfl⟩
  obtain ⟨fs, hfs⟩ := hfs
  unfold choose_font
  rw [hfs]
  dsimp only
  split_ifs <;> exact ⟨_, rfl⟩

/-- Draw calls added by `add_text` sit within the printable area. -/
lemma add_text_drawn_bound (cfg : Cfg) (s : CardState)
    (text style size : String) (op : DrawOp)
    (hmem : op ∈ (add_text cfg s text style size).1.drawn) :
    op ∈ s.drawn ∨ ((op.y : ℕ) : ℤ) ≤ height_minus_space cfg := by
  revert hmem
  unfold add_text
  cases hc : choose_font cfg text style size with
  | error e => intro hmem; exact Or.inl hmem
  | ok p =>
    obtain ⟨font, chars⟩ := p
    dsimp only
    split
    · intro hmem; exact Or.inl hmem
    · have hdm := drawLines_drawn_mem cfg font (wrap text chars) s op
      cases hd : drawLines cfg font (wrap text chars) s with
      | mk s1 o =>
        rw [hd] at hdm
        cases o with
        | none => intro hmem; exact hdm hmem
        | some e => intro hmem; exact hdm hmem

/-! ### Concrete probe inputs for witnesses and counterexamples -/

/-- A small square frame (100×100, aspect ratio 1) with reserved bottom
space 50 and a constant external text measure. -/
def probeCfg : Cfg :=
  { image_width := 100, image_height := 100, space := 50,
    measure := fun _ _ => 10 }

/-- A small square frame with no reserved bottom space. -/
def probeCfg0 : Cfg :=
  { image_width := 100, image_height := 100, space := 0,
    measure := fun _ _ => 10 }

/-- A sample parsed magical-item row. -/
def sampleRow : MagicalItemRow :=
  { jmeno := "Ring of Fire", legenda := "Old legend", mechanika := "Does things",
    inSet := "1", setName := "Relics", setPocet := "3" }

/-- A sample row whose in-set flag is not `"1"`. -/
def sampleRowNoSet : MagicalItemRow :=
  { jmeno := "Plain Rock", legenda := "None", mechanika := "Nothing",
    inSet := "0", setName := "", setPocet := "" }

/-- A sample magical-item frame. -/
def probeFrame : Frame :=
  { image_width := 1000, image_height := 1400, measure := fun _ _ => 10 }

/-! ### Claim theorems -/

/-- Claim C1: for every card, text, valid style and size hint, `choose_font`
returns the small tier with budget `int(50·ratio)` when the text length
exceeds `int(150·ratio)` or the hint is `"small"`; otherwise the normal tier
with budget `int(40·ratio)` when the length exceeds `int(100·ratio)` or the
hint is `"normal"`; otherwise the normal tier (never the large tier, even
for hint `"large"`) with budget `int(30·ratio)`, with
`ratio = image_width / image_height`. -/
theorem choose_font_tier_budget_spec (cfg : Cfg) (text style size : String)
    (hstyle : style = "bold" ∨ style = "italic") :
    (choose_font cfg text style size =
      (if text.length > (150 * cfg.image_width) / cfg.image_height ∨ size = "small" then
        Except.ok (⟨if style = "bold" then FontStyle.bold else FontStyle.italic,
          FontTier.small⟩, (50 * cfg.image_width) / cfg.image_height)
      else if text.length > (100 * cfg.image_width) / cfg.image_height ∨ size = "normal" then
        Except.ok (⟨if style = "bold" then FontStyle.bold else FontStyle.italic,
          FontTier.normal⟩, (40 * cfg.image_width) / cfg.image_height)
      else
        Except.ok (⟨if style = "bold" then FontStyle.bold else FontStyle.italic,
          FontTier.normal⟩, (30 * cfg.image_width) / cfg.image_height)))
    ∧ ∀ font budget, choose_font cfg text style size = Except.ok (font, budget) →
        font.tier ≠ FontTier.large := by
  have hsd : styleDict? style
      = some (if style = "bold" then FontStyle.bold else FontStyle.italic) := by
    rcases hstyle with h | h <;> subst h <;> rfl
  constructor
  · unfold choose_font ratio_to_int
    rw [hsd]
  · intro font budget hfb
    unfold choose_font at hfb
    rw [hsd] at hfb
    dsimp only at hfb
    split_ifs at hfb <;>
      (simp only [Except.ok.injEq, Prod.mk.injEq] at hfb
       obtain ⟨hf, _⟩ := hfb
       subst hf
       simp)

/-- Witness for C1 at a concrete input. -/
theorem choose_font_tier_budget_spec_witness :
    ("bold" = "bold" ∨ "bold" = "italic")
    ∧ ((choose_font probeCfg "hello" "bold" "large" =
        (if "hello".length > (150 * probeCfg.image_width) / probeCfg.image_height
            ∨ "large" = "small" then
          Except.ok (⟨if "bold" = "bold" then FontStyle.bold else FontStyle.italic,
            FontTier.small⟩, (50 * probeCfg.image_width) / probeCfg.image_height)
        else if "hello".length > (100 * probeCfg.image_width) / probeCfg.image_height
            ∨ "large" = "normal" then
          Except.ok (⟨if "bold" = "bold" then FontStyle.bold else FontStyle.italic,
            FontTier.normal⟩, (40 * probeCfg.image_width) / probeCfg.image_height)
        else
          Except.ok (⟨if "bold" = "bold" then FontStyle.bold else FontStyle.italic,
            FontTier.normal⟩, (30 * probeCfg.image_width) / probeCfg.image_height)))
      ∧ ∀ font budget,
          choose_font probeCfg "hello" "bold" "large" = Except.ok (font, budget) →
          font.tier ≠ FontTier.large) :=
  ⟨Or.inl rfl,
   choose_font_tier_budget_spec probeCfg "hello" "bold" "large" (Or.inl rfl)⟩

/-- Claim C2: for every text block added with `add_text` under a valid
style and a positive character budget (`textwrap.wrap` raises `ValueError`
for a non-positive width, a distinct failure before anything is drawn),
the text is wrapped by `textwrap.wrap` at the character budget; the
overflow error is raised if and only if some wrapped line's advanced
cursor position exceeds `image_height - space`; on success the cursor
advances by `line_height` per line plus one extra `blank_line_height` and
all lines are drawn; on the first overflowing line the call fails
immediately there, keeping the lines already drawn. -/
theorem add_text_wrap_overflow_spec (cfg : Cfg) (s : CardState)
    (text style size : String) (font : Font) (chars : ℕ)
    (hc : choose_font cfg text style size = Except.ok (font, chars))
    (hpos : 0 < chars) :
    ((add_text cfg s text style size).2 = some CardError.characterLimitExceededError ↔
      ∃ i < (wrap text chars).length,
        ((s.y_position + line_height * (i + 1) : ℕ) : ℤ) > height_minus_space cfg)
    ∧ ((add_text cfg s text style size).2 = none →
        (add_text cfg s text style size).1.y_position
          = s.y_position + line_height * (wrap text chars).length + blank_line_height
        ∧ (add_text cfg s text style size).1.drawn.map DrawOp.text
          = s.drawn.map DrawOp.text ++ wrap text chars)
    ∧ (∀ j, j < (wrap text chars).length →
        (∀ i < j,
          ((s.y_position + line_height * (i + 1) : ℕ) : ℤ) ≤ height_minus_space cfg) →
        ((s.y_position + line_height * (j + 1) : ℕ) : ℤ) > height_minus_space cfg →
          (add_text cfg s text style size).2 = some CardError.characterLimitExceededError
          ∧ (add_text cfg s text style size).1.y_position
              = s.y_position + line_height * (j + 1)
          ∧ (add_text cfg s text style size).1.drawn.map DrawOp.text
              = s.drawn.map DrawOp.text ++ (wrap text chars).take j) := by
  rw [add_text_eq cfg s text style size font chars hc hpos]
  have hniff := drawLines_none_iff cfg font (wrap text chars) s
  have hsnd := drawLines_snd_eq cfg font (wrap text chars) s
  have hnspec := drawLines_none_spec cfg font (wrap text chars) s
  have herr := drawLines_err_spec cfg font (wrap text chars) s
  cases hd : drawLines cfg font (wrap text chars) s with
  | mk s1 o =>
    rw [hd] at hniff hsnd hnspec herr
    cases o with
    | none =>
      dsimp only
      have hall := hniff.mp rfl
      obtain ⟨hy, htexts, _⟩ := hnspec rfl
      refine ⟨?_, ?_, ?_⟩
      · constructor
        · intro hcon; exact Option.noConfusion hcon
        · rintro ⟨i, hi, hgt⟩
          exact absurd (hall i hi)
            (by simp only [line_height] at hgt ⊢; push_cast at hgt ⊢; omega)
      · intro _
        exact ⟨by rw [hy], htexts⟩
      · intro j hj hpre hat
        exact absurd (hall j hj)
          (by simp only [line_height] at hat ⊢; push_cast at hat ⊢; omega)
    | some e =>
      dsimp only
      have he : e = CardError.characterLimitExceededError := by
        rcases hsnd with h | h
        · exact Option.noConfusion h
        · exact Option.some.inj h
      subst he
      refine ⟨?_, ?_, ?_⟩
      · constructor
        · intro _
          have hnall : ¬ ∀ i < (wrap text chars).length,
              ((s.y_position + line_height * (i + 1) : ℕ) : ℤ) ≤ height_minus_space cfg := by
            intro hall
            exact Option.noConfusion (hniff.mpr hall)
          push_neg at hnall
          obtain ⟨i, hi, hgt⟩ := hnall
          exact ⟨i, hi, hgt⟩
        · intro _; rfl
      · intro hcon; exact Option.noConfusion hcon
      · intro j hj hpre hat
        exact herr j hj hpre hat

/-- A single 40-character word: at budget 30, `textwrap.wrap` breaks it
into a 30-character piece and a 10-character remainder. -/
def longWord : String := String.mk (List.replicate 40 'a')

/-- Witness for C2 at a concrete input that exercises the long-word break:
on the 100×100 frame with reserved space 50, the 40-character word wraps
to two lines and the second line's advanced cursor overflows. -/
theorem add_text_wrap_overflow_spec_witness :
    choose_font probeCfg longWord "bold" "large"
        = Except.ok ((⟨FontStyle.bold, FontTier.normal⟩ : Font), 30)
    ∧ 0 < 30
    ∧ (((add_text probeCfg Card.init longWord "bold" "large").2
          = some CardError.characterLimitExceededError ↔
        ∃ i < (wrap longWord 30).length,
          ((Card.init.y_position + line_height * (i + 1) : ℕ) : ℤ)
            > height_minus_space probeCfg)
      ∧ ((add_text probeCfg Card.init longWord "bold" "large").2 = none →
          (add_text probeCfg Card.init longWord "bold" "large").1.y_position
            = Card.init.y_position + line_height * (wrap longWord 30).length
                + blank_line_height
          ∧ (add_text probeCfg Card.init longWord "bold" "large").1.drawn.map DrawOp.text
            = Card.init.drawn.map DrawOp.text ++ wrap longWord 30)
      ∧ (∀ j, j < (wrap longWord 30).length →
          (∀ i < j,
            ((Card.init.y_position + line_height * (i + 1) : ℕ) : ℤ)
              ≤ height_minus_space probeCfg) →
          ((Card.init.y_position + line_height * (j + 1) : ℕ) : ℤ)
              > height_minus_space probeCfg →
            (add_text probeCfg Card.init longWord "bold" "large").2
              = some CardError.characterLimitExceededError
            ∧ (add_text probeCfg Card.init longWord "bold" "large").1.y_position
                = Card.init.y_position + line_height * (j + 1)
            ∧ (add_text probeCfg Card.init longWord "bold" "large").1.drawn.map DrawOp.text
                = Card.init.drawn.map DrawOp.text ++ (wrap longWord 30).take j)) :=
  ⟨rfl, by decide,
   add_text_wrap_overflow_spec probeCfg Card.init longWord "bold" "large"
     ⟨FontStyle.bold, FontTier.normal⟩ 30 rfl (by decide)⟩

/-- Counterexample to C3 as stated: on a 100×100 frame with reserved bottom
space 50, a single successful `add_text` leaves the cursor at 90, strictly
above `image_height - space = 50`, because the trailing blank-line advance
is never checked. -/
theorem cursor_bound_cex :
    (add_text probeCfg Card.init "a" "bold" "large").2 = none
    ∧ height_minus_space probeCfg
        < (((add_text probeCfg Card.init "a" "bold" "large").1.y_position : ℕ) : ℤ) := by
  constructor
  · decide
  · decide

/-- The y positions of the draw calls added by `add_text` are bounded by
`image_height - space`. -/
lemma add_text_drawn_y_bound (cfg : Cfg) (s : CardState)
    (text style size : String) (y : ℕ)
    (hmem : y ∈ (add_text cfg s text style size).1.drawn.map DrawOp.y) :
    y ∈ s.drawn.map DrawOp.y ∨ ((y : ℕ) : ℤ) ≤ height_minus_space cfg := by
  obtain ⟨op, hop, rfl⟩ := List.mem_map.mp hmem
  rcases add_text_drawn_bound cfg s text style size op hop with h | h
  · exact Or.inl (List.mem_map_of_mem _ h)
  · exact Or.inr h

/-- Claim C3 (amended): across every sequence of `add_title`/`add_text`
operations the vertical cursor is monotonically non-decreasing, and the
bound `image_height - space` is enforced only for the text lines drawn by
`add_text` (every draw call `add_text` adds has its y position within the
bound); the cursor itself may exceed the bound after a successful
`add_title` or after `add_text`'s trailing blank-line advance. -/
theorem cursor_monotone_spec (cfg : Cfg) (s : CardState) (ops : List Op) :
    s.y_position ≤ (runOps cfg s ops).1.y_position
    ∧ ∀ (text style size : String) (y : ℕ),
        y ∈ (add_text cfg s text style size).1.drawn.map DrawOp.y →
        y ∈ s.drawn.map DrawOp.y ∨ ((y : ℕ) : ℤ) ≤ height_minus_space cfg :=
  ⟨runOps_y_mono cfg ops s,
   fun text style size y hmem =>
     add_text_drawn_y_bound cfg s text style size y hmem⟩

/-- Witness for the amended C3 at a concrete input. -/
theorem cursor_monotone_spec_witness :
    Card.init.y_position
        ≤ (runOps probeCfg Card.init
            [Op.opTitle "Ring of Fire", Op.opText "a" "bold" "large"]).1.y_position
    ∧ (50 ∈ (add_text probeCfg Card.init "a" "bold" "large").1.drawn.map DrawOp.y)
    ∧ (50 ∈ Card.init.drawn.map DrawOp.y
        ∨ ((50 : ℕ) : ℤ) ≤ height_minus_space probeCfg) :=
  ⟨(cursor_monotone_spec probeCfg Card.init
      [Op.opTitle "Ring of Fire", Op.opText "a" "bold" "large"]).1,
   by decide,
   (cursor_monotone_spec probeCfg Card.init []).2 "a" "bold" "large" 50 (by decide)⟩

/-- Counterexample to C4 as stated: after `add_title('')` the stored title
is the empty string, which is falsy in Python, so a second `add_title`
succeeds instead of always failing with the duplicate-title error. -/
theorem add_title_twice_cex :
    (add_title probeCfg0 Card.init "").2 = none
    ∧ (add_title probeCfg0 (add_title probeCfg0 Card.init "").1 "x").2 = none := by
  constructor
  · decide
  · decide

/-- Claim C4 (amended): a second `add_title` fails with the duplicate-title
error exactly when the stored title is non-empty (which holds whenever the
first title was non-empty, but not after an empty first title), and the
failed call leaves the card state completely unchanged. -/
theorem add_title_duplicate_spec (cfg : Cfg) (s : CardState) (t : String) :
    ((add_title cfg s t).2 = some CardError.titleAlreadySetExeption ↔ s.title ≠ "")
    ∧ (s.title ≠ "" → (add_title cfg s t).1 = s) := by
  by_cases h : s.title = ""
  · rw [add_title_of_eq cfg s t h]
    constructor
    · simp [h]
    · intro hne; exact absurd h hne
  · rw [add_title_of_ne cfg s t h]
    exact ⟨by simp [h], fun _ => rfl⟩

/-- Witness for the amended C4 at a concrete input. -/
theorem add_title_duplicate_spec_witness :
    ({ y_position := 60, title := "Ring_of_Fire", drawn := [] } : CardState).title ≠ ""
    ∧ (add_title probeCfg0
        ({ y_position := 60, title := "Ring_of_Fire", drawn := [] } : CardState) "x").2
        = some CardError.titleAlreadySetExeption
    ∧ (add_title probeCfg0
        ({ y_position := 60, title := "Ring_of_Fire", drawn := [] } : CardState) "x").1
        = ({ y_position := 60, title := "Ring_of_Fire", drawn := [] } : CardState) :=
  ⟨by decide,
   (add_title_duplicate_spec probeCfg0
     { y_position := 60, title := "Ring_of_Fire", drawn := [] } "x").1.mpr (by decide),
   (add_title_duplicate_spec probeCfg0
     { y_position := 60, title := "Ring_of_Fire", drawn := [] } "x").2 (by decide)⟩

/-- Claim C5: for every text, size hint, and style other than exactly
`"bold"` or `"italic"`, `add_text` fails with the unknown-style error before
any drawing occurs and before the cursor is advanced: the card state is
returned unchanged. -/
theorem add_text_unknown_style_spec (cfg : Cfg) (s : CardState)
    (text size style : String)
    (h1 : style ≠ "bold") (h2 : style ≠ "italic") :
    add_text cfg s text style size = (s, some CardError.unknownFontStyleExeption) := by
  unfold add_text choose_font styleDict?
  rw [if_neg h1, if_neg h2]

/-- Witness for C5 at a concrete input. -/
theorem add_text_unknown_style_spec_witness :
    ("underline" ≠ "bold")
    ∧ ("underline" ≠ "italic")
    ∧ add_text probeCfg Card.init "some text" "underline" "large"
        = (Card.init, some CardError.unknownFontStyleExeption) :=
  ⟨by decide, by decide,
   add_text_unknown_style_spec probeCfg Card.init "some text" "large" "underline"
     (by decide) (by decide)⟩

/-- Claim C6: on a fresh card, `add_title` succeeds, draws the title at
`x = (image_width - title_pixel_width) / 2` and `y = 20` (the initial
cursor), stores the title with spaces as underscores, and leaves the cursor
at `60 = 20 + blank_line_height`. -/
theorem add_title_fresh_card_spec (cfg : Cfg) (t : String) :
    add_title cfg Card.init t =
      ({ y_position := 60,
         title := replaceSpaces t,
         drawn := [⟨((cfg.image_width : ℚ)
                      - (cfg.measure t ⟨FontStyle.bold, FontTier.title⟩ : ℚ)) / 2,
                    20, t, ⟨FontStyle.bold, FontTier.title⟩⟩] }, none) := by
  rw [add_title_of_eq cfg Card.init t rfl]
  simp [Card.init, blank_line_height]

/-- Claim C7: for every content-type selector other than `"magical-items"`
or `"maze-cards"`, `process_csv` fails with the unknown-content-type error
before the input file is opened and before any row is processed: the error
result carries no trace events at all. -/
theorem process_csv_unknown_type_spec (csv_path card_type : String)
    (rows : List MagicalItemRow)
    (h1 : card_type ≠ "magical-items") (h2 : card_type ≠ "maze-cards") :
    process_csv csv_path card_type rows
      = Except.error ProcError.unknownCardTypeException := by
  unfold process_csv dispatchComposer?
  rw [if_neg h1, if_neg h2]

/-- Witness for C7 at a concrete input. -/
theorem process_csv_unknown_type_spec_witness :
    ("foo" ≠ "magical-items")
    ∧ ("foo" ≠ "maze-cards")
    ∧ process_csv "data/artefakty.csv" "foo" [sampleRow]
        = Except.error ProcError.unknownCardTypeException :=
  ⟨by decide, by decide,
   process_csv_unknown_type_spec "data/artefakty.csv" "foo" [sampleRow]
     (by decide) (by decide)⟩

/-- Claim C8: the magical-item composer uses reserved bottom space 100 and
issues its layout calls in this fixed order: the italic/normal kicker
label, the title from the row's name field, the italic/small set-membership
line only when the in-set flag equals `"1"`, the bold/large mechanic text,
and the italic/large flavor text; when the flag is not `"1"` no
set-membership line appears. -/
theorem create_magical_item_order_spec (fr : Frame) (item : MagicalItemRow) :
    (magical_item_cfg fr).space = 100
    ∧ create_magical_item fr item
        = runOps (magical_item_cfg fr) Card.init (magical_item_ops item)
    ∧ magical_item_ops item =
        [Op.opText "Magický předmět" "italic" "normal", Op.opTitle item.jmeno]
        ++ (if item.inSet = "1" then
              [Op.opText ("Patří do setu: " ++ item.setName ++ "  [" ++ item.setPocet ++ "]")
                "italic" "small"]
            else [])
        ++ [Op.opText item.mechanika "bold" "large", Op.opText item.legenda "italic" "large"]
    ∧ (item.inSet ≠ "1" →
        magical_item_ops item =
          [Op.opText "Magický předmět" "italic" "normal", Op.opTitle item.jmeno,
           Op.opText item.mechanika "bold" "large",
           Op.opText item.legenda "italic" "large"]) := by
  refine ⟨rfl, rfl, by simp [magical_item_ops], ?_⟩
  intro h
  simp [magical_item_ops, h]

/-- Witness for C8 at a concrete input. -/
theorem create_magical_item_order_spec_witness :
    (sampleRowNoSet.inSet ≠ "1")
    ∧ magical_item_ops sampleRowNoSet =
        [Op.opText "Magický předmět" "italic" "normal", Op.opTitle sampleRowNoSet.jmeno,
         Op.opText sampleRowNoSet.mechanika "bold" "large",
         Op.opText sampleRowNoSet.legenda "italic" "large"] :=
  ⟨by decide,
   (create_magical_item_order_spec probeFrame sampleRowNoSet).2.2.2 (by decide)⟩

/-- Claim C9: for a card whose title was set from a title string, export
writes to `<folder>/card_<title>.png` with every space of the title
replaced by an underscore; a missing output folder yields a reported
outcome value, not an exception, so processing can continue. -/
theorem save_into_file_path_spec (cfg : Cfg) (t folder : String)
    (folderExists : Bool)
    (hne : folder ≠ "") (hsep : endsWithSep folder = false) :
    save_into_file folder folderExists (add_title cfg Card.init t).1 =
      (if folderExists then
        SaveOutcome.saved (folder ++ "/" ++ ("card_" ++ replaceSpaces t ++ ".png"))
      else SaveOutcome.folderMissing folder) := by
  rw [add_title_of_eq cfg Card.init t rfl]
  simp [save_into_file, os_path_join, hne, hsep]

/-- Witness for C9 at a concrete input: the default folder `cards` is
missing, so the outcome is the reported failure; the path for title
`Ring of Fire` would be `cards/card_Ring_of_Fire.png`. -/
theorem save_into_file_path_spec_witness :
    ("cards" ≠ "")
    ∧ (endsWithSep "cards" = false)
    ∧ save_into_file "cards" false (add_title probeCfg Card.init "Ring of Fire").1
        = SaveOutcome.folderMissing "cards"
    ∧ save_into_file "cards" true (add_title probeCfg Card.init "Ring of Fire").1
        = SaveOutcome.saved "cards/card_Ring_of_Fire.png" :=
  ⟨by decide, by decide,
   (save_into_file_path_spec probeCfg "Ring of Fire" "cards" false
      (by decide) (by decide)).trans (by decide),
   (save_into_file_path_spec probeCfg "Ring of Fire" "cards" true
      (by decide) (by decide)).trans (by decide)⟩

/-- Claim C10: the size hint is never validated: with a valid style and any
hint outside `{"small", "normal", "large"}` the font selection still
succeeds (no error from the hint) and `add_text` behaves exactly as with
the hint `"large"`, selecting the tier and budget purely by the text-length
thresholds. -/
theorem size_hint_unvalidated_spec (cfg : Cfg) (s : CardState)
    (text style size : String)
    (hstyle : style = "bold" ∨ style = "italic")
    (h1 : size ≠ "small") (h2 : size ≠ "normal") (h3 : size ≠ "large") :
    (∃ fb, choose_font cfg text style size = Except.ok fb)
    ∧ choose_font cfg text style size = choose_font cfg text style "large"
    ∧ add_text cfg s text style size = add_text cfg s text style "large" := by
  have hcf : choose_font cfg text style size = choose_font cfg text style "large" := by
    unfold choose_font
    cases hsd : styleDict? style with
    | none => rfl
    | some fs =>
      dsimp only
      simp [h1, h2]
  refine ⟨choose_font_ok_of_style cfg text style size hstyle, hcf, ?_⟩
  unfold add_text
  rw [hcf]

/-- Witness for C10 at a concrete input. -/
theorem size_hint_unvalidated_spec_witness :
    ("bold" = "bold" ∨ "bold" = "italic")
    ∧ ("huge" ≠ "small") ∧ ("huge" ≠ "normal") ∧ ("huge" ≠ "large")
    ∧ (∃ fb, choose_font probeCfg "hello" "bold" "huge" = Except.ok fb)
    ∧ choose_font probeCfg "hello" "bold" "huge"
        = choose_font probeCfg "hello" "bold" "large"
    ∧ add_text probeCfg Card.init "hello" "bold" "huge"
        = add_text probeCfg Card.init "hello" "bold" "large" :=
  ⟨Or.inl rfl, by decide, by decide, by decide,
   size_hint_unvalidated_spec probeCfg Card.init "hello" "bold" "huge"
     (Or.inl rfl) (by decide) (by decide) (by decide)⟩

end CardMaker
